import Mathlib

/-
Verification of the handshake chat engine core against its specification.

The Go sources are shallowly embedded: byte slices become `List Nat`,
Go strings become `List Char`, Go maps become association lists, and
fallible functions return `Except String`.  External libraries
(argon2, nacl/secretbox, crypto/rand, the network backends and the
JSON codec) are modelled as explicit oracle parameters; everything in
the repository itself is translated directly from the source.
A Go runtime panic is modelled by the `GoR.panic` constructor.
-/

instance instDecEqExcept {ε α : Type} [DecidableEq ε] [DecidableEq α] :
    DecidableEq (Except ε α) := fun a b =>
  match a, b with
  | Except.error e, Except.error f =>
      if h : e = f then isTrue (by subst h; rfl)
      else isFalse (fun hc => h (by injection hc))
  | Except.error _, Except.ok _ => isFalse (fun hc => Except.noConfusion hc)
  | Except.ok _, Except.error _ => isFalse (fun hc => Except.noConfusion hc)
  | Except.ok x, Except.ok y =>
      if h : x = y then isTrue (by subst h; rfl)
      else isFalse (fun hc => h (by injection hc))

/-- Bytes of a Go byte slice, each entry intended to lie in 0..255. -/
abbrev Bytes := List Nat

/-- A Go string, modelled as its list of characters. -/
abbrev Str := List Char

/-- Result of a Go computation that may panic (model of a Go runtime panic). -/
inductive GoR (α : Type) where
  | panic (msg : String)
  | ok (a : α)
deriving DecidableEq, Repr

instance : Monad GoR where
  pure := GoR.ok
  bind := fun x f => match x with
    | GoR.panic m => GoR.panic m
    | GoR.ok a => f a

/-- Model of Go string([]byte) conversion. -/
def bytesToStr (b : Bytes) : Str := b.map Char.ofNat

/-- Model of Go []byte(string) conversion. -/
def strToBytes (s : Str) : Bytes := s.map Char.toNat

/-- The standard base64 alphabet, as in Go's encoding/base64 StdEncoding. -/
def b64Alphabet : Str :=
  String.toList "ABCDEFGHIJKLMNOPQRSTUVWXYZabcdefghijklmnopqrstuvwxyz0123456789+/"

/-- The character for a 6-bit group. -/
def b64Char (n : Nat) : Char := b64Alphabet.getD n '?'

/-- Standard base64 encoding of a byte list (Go base64.StdEncoding.EncodeToString). -/
def base64encode : Bytes → Str
  | [] => []
  | [a] => [b64Char (a / 4), b64Char (a % 4 * 16), '=', '=']
  | [a, b] => [b64Char (a / 4), b64Char (a % 4 * 16 + b / 16), b64Char (b % 16 * 4), '=']
  | a :: b :: c :: rest =>
      b64Char (a / 4) :: b64Char (a % 4 * 16 + b / 16) ::
      b64Char (b % 16 * 4 + c / 64) :: b64Char (c % 64) :: base64encode rest

/-- Position of a character in an alphabet, used for base64 decoding. -/
def b64ValAux : Str → Char → Nat → Option Nat
  | [], _, _ => none
  | a :: t, ch, i => if a = ch then some i else b64ValAux t ch (i + 1)

/-- The 6-bit value of a base64 character, if valid. -/
def b64Val (ch : Char) : Option Nat := b64ValAux b64Alphabet ch 0

/-- Standard base64 decoding (Go base64.StdEncoding.DecodeString). -/
def base64decode : Str → Except String Bytes
  | [] => Except.ok []
  | w :: x :: y :: z :: rest =>
      match b64Val w, b64Val x with
      | some a, some b =>
        if y = '=' ∧ z = '=' ∧ rest = [] then Except.ok [a * 4 + b / 16]
        else match b64Val y with
          | some c =>
            if z = '=' ∧ rest = [] then Except.ok [a * 4 + b / 16, b % 16 * 16 + c / 4]
            else match b64Val z, base64decode rest with
              | some d, Except.ok t =>
                  Except.ok ([a * 4 + b / 16, b % 16 * 16 + c / 4, c % 4 * 64 + d] ++ t)
              | some _, Except.error e => Except.error e
              | none, _ => Except.error "illegal base64 data"
          | none => Except.error "illegal base64 data"
      | _, _ => Except.error "illegal base64 data"
  | _ => Except.error "illegal base64 data"

/-! ## Rendezvous backend freshness (storage_hashmap.go, updateLatest)

`updateLatest` is translated with the wall clock passed explicitly.  The
returned pair is (error-or-unit, the new value of the `Latest` field):
on an error return the Go method leaves `s.Latest` unassigned. -/

/-- storage_hashmap.go lines 42-54: the freshness / replay check on the
signed-pointer channel.  `latest` is the stored high-water mark, `now` the
current wall clock in ns, `timeStamp` the payload timestamp. -/
def updateLatest (latest now timeStamp : Int) : Except String Unit × Int :=
  if timeStamp > now + 5 * 1000000000 then
    (Except.error "invalid future timestamp", latest)
  else if latest > timeStamp then
    (Except.error "stale timestamp", latest)
  else
    (Except.ok (), timeStamp)

/-! ## Lookup tables (part_004, type lookup) -/

/-- A lookup table: Go `map[string][]byte`, modelled as an association list
with unique keys. -/
abbrev lookupT := List (Str × Bytes)

/-- Go map read `l[key]`: returns the zero value (empty slice) when absent. -/
def lookupGet : lookupT → Str → Bytes
  | [], _ => []
  | p :: t, k => if p.1 = k then p.2 else lookupGet t k

/-- Go `delete(*l, key)`: removes the key (all occurrences, matching map
semantics on unique-keyed lists). -/
def lookupDelete (l : lookupT) (k : Str) : lookupT :=
  l.filter (fun p => decide (p.1 ≠ k))

/-- part_004 lines 257-261: `popKey` reads the value then deletes the key. -/
def popKey (l : lookupT) (k : Str) : Bytes × lookupT :=
  (lookupGet l k, lookupDelete l k)

/-- Model of crypto/rand.Int(reader, max): draws uniformly below `max`; the
`draw` argument is the randomness oracle.  Panics when max ≤ 0, exactly as
the Go standard library does. -/
def randIntModel (draw : Nat) (max : Int) : GoR Nat :=
  if max ≤ 0 then GoR.panic "crypto/rand: argument to Int is <= 0"
  else GoR.ok (draw % max.toNat)

/-- part_004 lines 269-280: `getRandom` draws an index below the map size and
walks the table; the final `return "", []byte{}` is the loop fall-through. -/
def lookupGetRandom (l : lookupT) (draw : Nat) : GoR (Str × Bytes) := do
  let i ← randIntModel draw (Int.ofNat l.length)
  return l.getD i ([], [])

/-- part_004 lines 263-267: `popRandom` draws an entry then deletes its key. -/
def lookupPopRandom (l : lookupT) (draw : Nat) : GoR (Str × Bytes × lookupT) := do
  let (k, v) ← lookupGetRandom l draw
  return (k, v, lookupDelete l k)

/-! ## Chunked SecretBox cipher (crypto.go)

nacl/secretbox is an external library; it is modelled as an oracle
`SBPrim` whose contract (stated as hypotheses of the round-trip theorem)
is the documented XSalsa20-Poly1305 behaviour: sealing appends a 16-byte
tag and opening inverts sealing under the same nonce and key.  Nonce
generation (crypto/rand) is modelled by a nonce oracle `nonces` giving
the i-th generated nonce. -/

/-- Oracle for the nacl secretbox primitive.  `sealBox nonce msg key` is the
boxed bytes excluding the nonce; `openBox nonce box key` inverts it. -/
structure SBPrim where
  sealBox : Bytes → Bytes → Bytes → Bytes
  openBox : Bytes → Bytes → Bytes → Option Bytes

/-- Go's copy of a slice into a zeroed fixed-size array of length n. -/
def toFixed (n : Nat) (l : Bytes) : Bytes := (l ++ List.replicate n 0).take n

/-- NonceType (crypto.go lines 37-42). -/
inductive NonceType where
  | RandomNonce
  | TimeSeriesNonce
deriving DecidableEq, Repr

/-- CipherType (crypto.go lines 44-47): SecretBox is the only variant. -/
inductive CipherType where
  | SecretBox
deriving DecidableEq, Repr

/-- SecretBoxCipher (crypto.go lines 126-129). -/
structure SecretBoxCipher where
  Nonce : NonceType
  ChunkSize : Nat
deriving DecidableEq, Repr

/-- The Go loops `for i := 0; i < len(data); i += chunkSize` slicing
`data[i : i+chunkSize]` (clipped): chunking with fuel for structural
termination; the fuel is the list length, exact whenever `0 < c`. -/
def chunkGo (c : Nat) : Nat → Bytes → List Bytes
  | _, [] => []
  | 0, _ :: _ => []
  | f + 1, a :: t => ((a :: t).take c) :: chunkGo c f ((a :: t).drop c)

/-- Chunk a byte list into pieces of size `c` (final piece may be shorter). -/
def chunkList (c : Nat) (l : Bytes) : List Bytes := chunkGo c l.length l

/-- The encryption loop body of crypto.go lines 159-173: each chunk becomes
`nonce ++ secretbox.Seal(chunk)` (Seal appends to the nonce slice). -/
def sbEncryptChunks (prim : SBPrim) (key : Bytes) :
    List Bytes → (Nat → Bytes) → Nat → Bytes
  | [], _, _ => []
  | ch :: t, nonces, i =>
      (toFixed 24 (nonces i) ++ prim.sealBox (toFixed 24 (nonces i)) ch key) ++
        sbEncryptChunks prim key t nonces (i + 1)

/-- crypto.go lines 148-175: SecretBoxCipher.Encrypt. -/
def sbEncrypt (prim : SBPrim) (s : SecretBoxCipher) (nonces : Nat → Bytes)
    (data key : Bytes) : Except String Bytes :=
  if key.length ≠ 32 then Except.error "invalid key length"
  else Except.ok (sbEncryptChunks prim key (chunkList s.ChunkSize data) nonces 0)

/-- The decryption loop body of crypto.go lines 189-204: each chunk of size
ChunkSize+40 is split into its 24-byte nonce and the box, then opened. -/
def sbDecryptChunks (prim : SBPrim) (key : Bytes) : List Bytes → Except String Bytes
  | [] => Except.ok []
  | ch :: t =>
      match prim.openBox (toFixed 24 (ch.take 24)) (ch.drop 24) key with
      | none => Except.error "decrypt failed"
      | some m =>
          match sbDecryptChunks prim key t with
          | Except.error e => Except.error e
          | Except.ok rest => Except.ok (m ++ rest)

/-- crypto.go lines 178-206: SecretBoxCipher.Decrypt. -/
def sbDecrypt (prim : SBPrim) (s : SecretBoxCipher) (data key : Bytes) :
    Except String Bytes :=
  if key.length ≠ 32 then Except.error "invalid key length"
  else sbDecryptChunks prim key (chunkList (s.ChunkSize + 40) data)

/-! ## Chat log (part_004, ChatLog / ChatLogEntry / chatData) -/

/-- chatData (part_004 lines 178-184): the plain message payload. -/
structure chatData where
  Parent : Str
  Timestamp : Int
  Media : List Str
  Message : Str
  TTL : Int
deriving DecidableEq, Repr

/-- ChatLogEntry (part_004 lines 124-131). -/
structure ChatLogEntry where
  ID : Str
  Sender : Str
  Sent : Int
  Received : Int
  TTL : Int
  Data : chatData
deriving DecidableEq, Repr

/-- A ChatLog: Go `map[string]ChatLogEntry` as an association list with
unique keys. -/
abbrev ChatLog := List (Str × ChatLogEntry)

/-- Go map write `(*cl)[key] = entry`: replace any binding of the key. -/
def clInsert (cl : ChatLog) (k : Str) (v : ChatLogEntry) : ChatLog :=
  (k, v) :: cl.filter (fun p => decide (p.1 ≠ k))

/-- Go map read returning an Option. -/
def clGet : ChatLog → Str → Option ChatLogEntry
  | [], _ => none
  | p :: t, k => if p.1 = k then some p.2 else clGet t k

/-- Decimal rendering of an int64, as Go fmt's %v produces it. -/
def intToStr (i : Int) : Str :=
  if i < 0 then '-' :: Nat.toDigits 10 (-i).toNat else Nat.toDigits 10 i.toNat

/-- The chat-log key `fmt.Sprintf("%v-%v", timestamp, entry.ID)`. -/
def logKey (timestamp : Int) (id : Str) : Str := intToStr timestamp ++ '-' :: id

/-- part_004 lines 154-166: ChatLog.AddEntry.  Fails when both timestamps
are zero; otherwise keys the entry under `"{Sent}-{ID}"`, with Received
standing in when Sent is zero. -/
def addEntry (cl : ChatLog) (entry : ChatLogEntry) : Except String ChatLog :=
  if entry.Sent = 0 ∧ entry.Received = 0 then
    Except.error "no valid timestamp found"
  else
    let timestamp := if entry.Sent = 0 then entry.Received else entry.Sent
    Except.ok (clInsert cl (logKey timestamp entry.ID) entry)

/-- Go strings.Contains(s, pat): pat occurs as a contiguous substring of s. -/
def containsSub (s pat : Str) : Bool :=
  if pat.isPrefixOf s then true
  else
    match s with
    | [] => false
    | _ :: t => containsSub t pat

/-- part_004 lines 169-176: ChatLog.HashInLog uses strings.Contains against
each key of the log. -/
def hashInLog (cl : ChatLog) (hash : Str) : Bool :=
  cl.any (fun p => containsSub p.1 hash)

/-- Lexicographic Bool order on strings, as sort.Strings orders keys. -/
def strLe (a b : Str) : Bool := decide (a ≤ b)

/-- Insert a pair into a key-sorted association list. -/
def insertSorted (p : Str × ChatLogEntry) : ChatLog → ChatLog
  | [] => [p]
  | q :: t => if strLe p.1 q.1 then p :: q :: t else q :: insertSorted p t

/-- Sort an association list by ascending key (model of sort.Strings over
the key set; keys are unique so stability is irrelevant). -/
def sortByKey : ChatLog → ChatLog
  | [] => []
  | p :: t => insertSorted p (sortByKey t)

/-- part_004 lines 139-151: ChatLog.Sorted lists entries by ascending key. -/
def sortedLog (cl : ChatLog) : List ChatLogEntry :=
  (sortByKey cl).map (fun p => p.2)

/-! ## Session state and the message protocol (session.go)

The local KV with the session cipher wrapper (`Session.set`/`Session.get`)
is modelled as an in-memory record: per-chat state restricted to the one
chat the operations address.  The network backends, the peer cipher
(an interface value in the Go code) and the JSON codec are oracles in
`SessionEnv`; the randomness consumed by the two popRandom draws in
SendMessage and the wall clock are explicit fields. -/

/-- The chat struct of part_004 lines 186-192, with the peer roster reduced
to the iteration-ordered list of peer IDs (the strategies live in the
environment oracles). -/
structure ChatSt where
  PeerID : Str
  LastSent : Str
  Peers : List Str
  MaxTTL : Int
deriving DecidableEq, Repr

/-- part_004 lines 309-314: chat.TTL() with the 7-day default. -/
def chatTTL (c : ChatSt) : Int :=
  if c.MaxTTL ≤ 0 then 604800 else c.MaxTTL

/-- maxMessageSize (part_004 line 114). -/
def maxMessageSize : Nat := 250000

/-- The persisted per-chat state: chat config, per-peer lookup tables and
the chat log. -/
structure SessionState where
  chat : ChatSt
  lookups : Str → lookupT
  chatLog : ChatLog

/-- Replace the persisted lookup table of one peer (Session.setLookup). -/
def setLookupS (st : SessionState) (peerID : Str) (l : lookupT) : SessionState :=
  { st with lookups := fun q => if q = peerID then l else st.lookups q }

/-- Environment oracles for the session operations. -/
structure SessionEnv where
  rendezvousGet : Str → Except String Bytes
  blobGet : Str → Except String Bytes
  decrypt : Str → Bytes → Bytes → Except String Bytes
  encrypt : Bytes → Bytes → Except String Bytes
  parseChatData : Bytes → Except String chatData
  marshalChatData : chatData → Bytes
  blobSet : Bytes → Except String Str
  rendezvousSet : Bytes → Except String Unit
  now : Int
  draw1 : Nat
  draw2 : Nat

/-- session.go lines 314-352: Session.getRendezvousHash.  Fetches a peer's
rendezvous payload, pops the tag, persists the popped lookup table, then
decrypts the pointer; any failure is reported as the empty hash. -/
def getRendezvousHash (env : SessionEnv) (st : SessionState) (peerID : Str) :
    Str × SessionState :=
  match env.rendezvousGet peerID with
  | Except.error _ => ([], st)
  | Except.ok rBytes =>
    let rHash := base64encode (rBytes.take 24)
    let (rKey, l1) := popKey (st.lookups peerID) rHash
    let st1 := setLookupS st peerID l1
    match env.decrypt peerID (rBytes.drop 24) rKey with
    | Except.error _ => ([], st1)
    | Except.ok hashBytes =>
      let hash := bytesToStr hashBytes
      if hashInLog st1.chatLog hash then ([], st1)
      else (hash, st1)

/-- session.go lines 354-388: Session.retrieveMessage.  Fetches the blob,
pops the message tag (the pop is persisted only after the no-key check),
decrypts and JSON-decodes the payload. -/
def retrieveMessage (env : SessionEnv) (st : SessionState) (hash : Str)
    (peerID : Str) : Except String chatData × SessionState :=
  match env.blobGet hash with
  | Except.error e => (Except.error e, st)
  | Except.ok b =>
    let lookupHash := base64encode (b.take 24)
    let (key, l1) := popKey (st.lookups peerID) lookupHash
    if key.length = 0 then (Except.error "no key", st)
    else
      let st1 := setLookupS st peerID l1
      match env.decrypt peerID (b.drop 24) key with
      | Except.error e => (Except.error e, st1)
      | Except.ok d =>
        match env.parseChatData d with
        | Except.error e => (Except.error e, st1)
        | Except.ok data => (Except.ok data, st1)

/-- session.go lines 390-408: Session.logChatData appends a ChatLogEntry
built from retrieved chatData and persists the log. -/
def logChatData (st : SessionState) (peerID hash : Str) (data : chatData) :
    Except String Unit × SessionState :=
  let clEntry : ChatLogEntry :=
    { ID := hash, Sender := peerID, Sent := data.Timestamp, Received := 0,
      TTL := data.TTL, Data := data }
  match addEntry st.chatLog clEntry with
  | Except.error e => (Except.error e, st)
  | Except.ok cl1 => (Except.ok (), { st with chatLog := cl1 })

/-- session.go lines 410-435: Session.recursivelyLogParents walks the causal
parent chain.  The fuel bounds the recursion depth (each productive step
consumes a lookup entry, so any fuel beyond the table size is exact). -/
def recursivelyLogParents (env : SessionEnv) :
    Nat → SessionState → Str → chatData → Except String Unit × SessionState
  | 0, st, _, _ => (Except.error "recursion limit", st)
  | fuel + 1, st, peerID, data =>
    if data.Parent = [] then (Except.ok (), st)
    else if hashInLog st.chatLog data.Parent then (Except.ok (), st)
    else
      match retrieveMessage env st data.Parent peerID with
      | (Except.error e, st1) =>
          if e = "no key" then (Except.ok (), st1) else (Except.error e, st1)
      | (Except.ok parentData, st1) =>
        match logChatData st1 peerID data.Parent parentData with
        | (Except.error e, st2) => (Except.error e, st2)
        | (Except.ok _, st2) =>
          if parentData.Parent ≠ [] then
            recursivelyLogParents env fuel st2 peerID parentData
          else (Except.ok (), st2)

/-- The per-peer body of the loop in session.go lines 449-469: every error
is swallowed by `continue`. -/
def processPeer (env : SessionEnv) (fuel : Nat) (st : SessionState)
    (peerID : Str) : SessionState :=
  if peerID = st.chat.PeerID then st
  else
    match getRendezvousHash env st peerID with
    | ([], st1) => st1
    | (hash, st1) =>
      match retrieveMessage env st1 hash peerID with
      | (Except.error _, st2) => st2
      | (Except.ok data, st2) =>
        match logChatData st2 peerID hash data with
        | (Except.error _, st3) => st3
        | (Except.ok _, st3) =>
          (recursivelyLogParents env fuel st3 peerID data).2

/-- session.go lines 439-475: Session.RetrieveMessages loops over the peer
roster and returns the sorted chat log. -/
def retrieveMessages (env : SessionEnv) (fuel : Nat) (st : SessionState) :
    Except String (List ChatLogEntry) × SessionState :=
  let st1 := st.chat.Peers.foldl (processPeer env fuel) st
  (Except.ok (sortedLog st1.chatLog), st1)

/-- session.go lines 488-589: Session.SendMessage.  The size guard comes
first; then two lookup entries are popped (each pop persisted at once), the
message blob is published, LastSent is advanced, the pointer payload is
published and the entry is appended to the chat log.  A popRandom on an
exhausted table panics (GoR.panic), as crypto/rand.Int does in Go. -/
def sendMessage (env : SessionEnv) (st : SessionState) (b : Bytes) :
    GoR (Except String (List ChatLogEntry) × SessionState) :=
  if b.length > maxMessageSize then
    GoR.ok (Except.error "messag sized exceeds max size of 250000 bytes", st)
  else
    match env.parseChatData b with
    | Except.error e => GoR.ok (Except.error e, st)
    | Except.ok data0 =>
      let data : chatData :=
        { data0 with Parent := st.chat.LastSent, Timestamp := env.now,
                     TTL := chatTTL st.chat }
      let dataBytes := env.marshalChatData data
      match lookupPopRandom (st.lookups st.chat.PeerID) env.draw1 with
      | GoR.panic m => GoR.panic m
      | GoR.ok (mStoreKey, mStoreValue, l1) =>
        let st1 := setLookupS st st.chat.PeerID l1
        match base64decode mStoreKey with
        | Except.error e => GoR.ok (Except.error e, st1)
        | Except.ok mStoreKeyBytes =>
          match env.encrypt dataBytes mStoreValue with
          | Except.error e => GoR.ok (Except.error e, st1)
          | Except.ok cipherText =>
            match env.blobSet (mStoreKeyBytes ++ cipherText) with
            | Except.error e => GoR.ok (Except.error e, st1)
            | Except.ok hash =>
              let st2 := { st1 with chat := { st1.chat with LastSent := hash } }
              match lookupPopRandom (st2.lookups st2.chat.PeerID) env.draw2 with
              | GoR.panic m => GoR.panic m
              | GoR.ok (rStoreKey, rStoreValue, l2) =>
                let st3 := setLookupS st2 st2.chat.PeerID l2
                match base64decode rStoreKey with
                | Except.error e => GoR.ok (Except.error e, st3)
                | Except.ok rStoreKeyBytes =>
                  match env.encrypt (strToBytes hash) rStoreValue with
                  | Except.error e => GoR.ok (Except.error e, st3)
                  | Except.ok rCipherText =>
                    match env.rendezvousSet (rStoreKeyBytes ++ rCipherText) with
                    | Except.error e => GoR.ok (Except.error e, st3)
                    | Except.ok _ =>
                      let clEntry : ChatLogEntry :=
                        { ID := hash, Sender := st3.chat.PeerID,
                          Sent := data.Timestamp, Received := 0,
                          TTL := data.TTL, Data := data }
                      match addEntry st3.chatLog clEntry with
                      | Except.error e => GoR.ok (Except.error e, st3)
                      | Except.ok cl1 =>
                        let st4 := { st3 with chatLog := cl1 }
                        GoR.ok (Except.ok (sortedLog cl1), st4)

/-! ## Lookup table generation (crypto.go, genLookups)

Argon2id is an external KDF; it is modelled by a stream oracle
`argon pw salt outLen` returning `outLen` derived bytes. -/

/-- Go map insertion for building the lookup table, preserving first-insert
order (order is irrelevant to map semantics). -/
def lookupInsert (m : lookupT) (k : Str) (v : Bytes) : lookupT :=
  if m.any (fun p => decide (p.1 = k)) then
    m.map (fun p => if p.1 = k then (k, v) else p)
  else m ++ [(k, v)]

/-- crypto.go lines 77-103: genLookups.  Splits entropy into e1/e2/e3,
derives a tag stream and a key stream with Argon2id, then inserts entries
for i = 1 .. count-1 (the historical off-by-one). -/
def genLookups (argon : Bytes → Bytes → Nat → Bytes) (pepper entropy : Bytes)
    (cipherType : CipherType) (count : Int) : Except String lookupT :=
  if count < 1 then Except.error "count must be greater than or equal to 1"
  else
    let p := pepper
    let e1 := entropy.take 32
    let e2 := (entropy.drop 32).take 32
    let e3 := entropy.drop 64
    let keyLength : Nat := match cipherType with
      | CipherType.SecretBox => 32
    let lookupBytes := argon p e2 (count.toNat * 24)
    let keyBytes := argon e1 e3 (count.toNat * keyLength)
    Except.ok ((List.range' 1 (count.toNat - 1)).foldl
      (fun m i =>
        lookupInsert m
          (base64encode ((lookupBytes.drop ((i - 1) * 24)).take 24))
          ((keyBytes.drop ((i - 1) * keyLength)).take keyLength))
      [])

/-- The tag of entry i, as the specification describes it: the standard
base64 encoding of bytes (i-1)*24 .. i*24 of the Argon2id tag stream with
password = pepper and salt = entropy[32..64]. -/
def lookupTagSpec (argon : Bytes → Bytes → Nat → Bytes) (pepper entropy : Bytes)
    (count i : Nat) : Str :=
  base64encode
    (((argon pepper ((entropy.drop 32).take 32) (count * 24)).drop ((i - 1) * 24)).take 24)

/-- The key of entry i, as the specification describes it: bytes
(i-1)*32 .. i*32 of the Argon2id key stream with password = entropy[0..32]
and salt = entropy[64..96]. -/
def lookupKeySpec (argon : Bytes → Bytes → Nat → Bytes) (entropy : Bytes)
    (count i : Nat) : Bytes :=
  ((argon (entropy.take 32) (entropy.drop 64) (count * 32)).drop ((i - 1) * 32)).take 32

/-! ## Shared concrete objects used by witnesses and counterexamples -/

/-- A trivial environment: every oracle fails. -/
def envTriv : SessionEnv :=
  { rendezvousGet := fun _ => Except.error "x"
    blobGet := fun _ => Except.error "x"
    decrypt := fun _ _ _ => Except.error "x"
    encrypt := fun _ _ => Except.error "x"
    parseChatData := fun _ => Except.error "x"
    marshalChatData := fun _ => []
    blobSet := fun _ => Except.error "x"
    rendezvousSet := fun _ => Except.error "x"
    now := 0
    draw1 := 0
    draw2 := 0 }

/-- A zero-valued chatData. -/
def chatDataZero : chatData :=
  { Parent := [], Timestamp := 0, Media := [], Message := [], TTL := 0 }

/-- A two-peer chat whose own peer is "m". -/
def chat0 : ChatSt :=
  { PeerID := ['m'], LastSent := [], Peers := [['m'], ['p']], MaxTTL := 0 }

/-- A session state with empty lookup tables and an empty log. -/
def st0 : SessionState :=
  { chat := chat0, lookups := fun _ => [], chatLog := [] }

/-! ## C1 — rendezvous freshness check -/

/-- Claim C1 counterexample: a payload timestamp exactly equal to the stored
high-water mark is ACCEPTED by updateLatest (the stale check is strict),
contradicting the claim that it is rejected: at latest = 5, now = 5,
timeStamp = 5 the call succeeds and keeps the mark at 5. -/
theorem updateLatest_eq_accepted_cex :
    updateLatest 5 5 5 = (Except.ok (), 5) := by decide

/-- Claim C1 (amended): for the freshness check updateLatest with stored mark
`latest`: a timestamp equal to `latest` is accepted (the stale check is
strictly less-than) and leaves the mark at `latest`; `latest + 1` is accepted
and advances the mark; a timestamp strictly below `latest` is rejected as
stale; and a timestamp more than 5,000,000,000 ns ahead of the wall clock is
rejected and leaves the mark unchanged. -/
theorem updateLatest_freshness :
    (∀ latest now ts : Int, ts = latest → ts ≤ now + 5 * 1000000000 →
        updateLatest latest now ts = (Except.ok (), latest)) ∧
    (∀ latest now : Int, latest + 1 ≤ now + 5 * 1000000000 →
        updateLatest latest now (latest + 1) = (Except.ok (), latest + 1)) ∧
    (∀ latest now ts : Int, ts < latest → ts ≤ now + 5 * 1000000000 →
        updateLatest latest now ts = (Except.error "stale timestamp", latest)) ∧
    (∀ latest now ts : Int, ts > now + 5 * 1000000000 →
        updateLatest latest now ts = (Except.error "invalid future timestamp", latest)) := by
  refine ⟨?_, ?_, ?_, ?_⟩
  · intro latest now ts h1 h2
    subst h1
    unfold updateLatest
    rw [if_neg (by omega), if_neg (by omega)]
  · intro latest now h
    unfold updateLatest
    rw [if_neg (by omega), if_neg (by omega)]
  · intro latest now ts h1 h2
    unfold updateLatest
    rw [if_neg (by omega), if_pos (by omega)]
  · intro latest now ts h
    unfold updateLatest
    rw [if_pos (by omega)]

/-- Witness for C1's amended theorem at concrete inputs. -/
theorem updateLatest_freshness_witness :
    updateLatest 7 7 7 = (Except.ok (), 7) ∧
    updateLatest 7 7 8 = (Except.ok (), 8) ∧
    updateLatest 7 7 6 = (Except.error "stale timestamp", 7) ∧
    updateLatest 0 0 6000000000 = (Except.error "invalid future timestamp", 0) :=
  ⟨updateLatest_freshness.1 7 7 7 rfl (by decide),
   updateLatest_freshness.2.1 7 7 (by decide),
   updateLatest_freshness.2.2.1 7 7 6 (by decide) (by decide),
   updateLatest_freshness.2.2.2 0 0 6000000000 (by decide)⟩

/-! ## C8 — popKey (pop_by_tag) -/

/-- After deleting a key it can no longer be read. -/
lemma lookupGet_delete (l : lookupT) (k : Str) :
    lookupGet (lookupDelete l k) k = [] := by
  induction l with
  | nil => rfl
  | cons p t ih =>
      by_cases h : p.1 = k
      · simpa [lookupDelete, h] using ih
      · simpa [lookupDelete, lookupGet, h] using ih

/-- Reading an absent key yields the zero value. -/
lemma lookupGet_absent (l : lookupT) (k : Str) (h : ∀ p ∈ l, p.1 ≠ k) :
    lookupGet l k = [] := by
  induction l with
  | nil => rfl
  | cons p t ih =>
      have hp := h p (by simp)
      simp only [lookupGet, if_neg hp]
      exact ih fun q hq => h q (by simp [hq])

/-- Deleting an absent key leaves the table unchanged. -/
lemma lookupDelete_absent (l : lookupT) (k : Str) (h : ∀ p ∈ l, p.1 ≠ k) :
    lookupDelete l k = l := by
  rw [lookupDelete, List.filter_eq_self]
  intro p hp
  simpa using h p hp

/-- Claim C8: popKey removes the tag and returns its key; an absent tag
returns the empty key and leaves the table unchanged; popping the same tag
twice returns the empty key the second time. -/
theorem popKey_spec :
    (∀ (l : lookupT) (k : Str),
        popKey l k = (lookupGet l k, lookupDelete l k)) ∧
    (∀ (l : lookupT) (k : Str), lookupGet (popKey l k).2 k = []) ∧
    (∀ (l : lookupT) (k : Str), (∀ p ∈ l, p.1 ≠ k) → popKey l k = ([], l)) ∧
    (∀ (l : lookupT) (k : Str), (popKey (popKey l k).2 k).1 = []) := by
  refine ⟨fun l k => rfl, ?_, ?_, ?_⟩
  · intro l k
    exact lookupGet_delete l k
  · intro l k h
    simp [popKey, lookupGet_absent l k h, lookupDelete_absent l k h]
  · intro l k
    exact lookupGet_delete l k

/-- Witness for C8 at a concrete table. -/
theorem popKey_spec_witness :
    popKey [(['a'], [1])] ['a'] =
      (lookupGet [(['a'], [1])] ['a'], lookupDelete [(['a'], [1])] ['a']) ∧
    lookupGet (popKey [(['a'], [1])] ['a']).2 ['a'] = [] ∧
    popKey [(['a'], [1])] ['b'] = ([], [(['a'], [1])]) ∧
    (popKey (popKey [(['a'], [1])] ['a']).2 ['a']).1 = [] :=
  ⟨popKey_spec.1 [(['a'], [1])] ['a'],
   popKey_spec.2.1 [(['a'], [1])] ['a'],
   popKey_spec.2.2.1 [(['a'], [1])] ['b'] (by decide),
   popKey_spec.2.2.2 [(['a'], [1])] ['a']⟩

/-! ## C10 — ChatLog.AddEntry -/

/-- An inserted entry is found under its key (map overwrite semantics). -/
lemma clGet_clInsert (cl : ChatLog) (k : Str) (v : ChatLogEntry) :
    clGet (clInsert cl k v) k = some v := by
  simp [clInsert, clGet]

/-- Claim C10: AddEntry fails (producing no new log) exactly when both Sent
and Received are zero; otherwise it inserts the entry at key "{Sent}-{ID}"
(with Received in place of a zero Sent), overwriting any entry at that key. -/
theorem addEntry_spec :
    (∀ (cl : ChatLog) (e : ChatLogEntry), e.Sent = 0 → e.Received = 0 →
        addEntry cl e = Except.error "no valid timestamp found") ∧
    (∀ (cl : ChatLog) (e : ChatLogEntry), e.Sent ≠ 0 →
        addEntry cl e = Except.ok (clInsert cl (logKey e.Sent e.ID) e)) ∧
    (∀ (cl : ChatLog) (e : ChatLogEntry), e.Sent = 0 → e.Received ≠ 0 →
        addEntry cl e = Except.ok (clInsert cl (logKey e.Received e.ID) e)) ∧
    (∀ (cl : ChatLog) (k : Str) (v : ChatLogEntry),
        clGet (clInsert cl k v) k = some v) := by
  refine ⟨?_, ?_, ?_, clGet_clInsert⟩
  · intro cl e h1 h2
    simp [addEntry, h1, h2]
  · intro cl e h
    simp [addEntry, h]
  · intro cl e h1 h2
    simp [addEntry, h1, h2]

/-- A concrete chat-log entry with the given timestamps, for witnesses. -/
def entryW (s r : Int) : ChatLogEntry :=
  { ID := ['a'], Sender := ['m'], Sent := s, Received := r, TTL := 0,
    Data := chatDataZero }

/-- Witness for C10 at concrete entries. -/
theorem addEntry_spec_witness :
    addEntry [] (entryW 0 0) = Except.error "no valid timestamp found" ∧
    addEntry [] (entryW 12 0) =
      Except.ok (clInsert [] (logKey 12 ['a']) (entryW 12 0)) ∧
    addEntry [] (entryW 0 9) =
      Except.ok (clInsert [] (logKey 9 ['a']) (entryW 0 9)) ∧
    clGet (clInsert [] (['1'] : Str) (entryW 1 0)) ['1'] = some (entryW 1 0) :=
  ⟨addEntry_spec.1 [] _ rfl rfl,
   addEntry_spec.2.1 [] _ (by decide),
   addEntry_spec.2.2.1 [] _ rfl (by decide),
   addEntry_spec.2.2.2 [] ['1'] _⟩

/-! ## C6 — SendMessage size guard -/

/-- Claim C6: a message longer than MAX_MESSAGE_SIZE = 250000 bytes makes
SendMessage fail immediately with the size error, returning the state
untouched: no lookup entry is consumed, LastSent is unchanged, no log entry
is added, and no oracle (blob or rendezvous publish) output is consulted. -/
theorem sendMessage_too_large (env : SessionEnv) (st : SessionState)
    (b : Bytes) (h : b.length > maxMessageSize) :
    sendMessage env st b =
      GoR.ok (Except.error "messag sized exceeds max size of 250000 bytes", st) := by
  unfold sendMessage
  rw [if_pos h]

/-- Witness for C6: a 250001-byte message. -/
theorem sendMessage_too_large_witness :
    sendMessage envTriv st0 (List.replicate 250001 0) =
      GoR.ok (Except.error "messag sized exceeds max size of 250000 bytes", st0) :=
  sendMessage_too_large envTriv st0 (List.replicate 250001 0)
    (by rw [List.length_replicate]; decide)

/-! ## C4 — exhausted lookup tables -/

/-- Environment for exercising the exhausted-table paths: JSON parsing and
blob reads succeed, so control reaches the lookup-table operations. -/
def envC4 : SessionEnv :=
  { envTriv with
      parseChatData := fun _ => Except.ok chatDataZero
      blobGet := fun _ => Except.ok (List.replicate 24 0) }

/-- Claim C4 (code bug): popRandom on an empty lookup table does NOT return
an error — crypto/rand.Int panics on max ≤ 0, so SendMessage on an exhausted
table crashes instead of failing with LookupExhausted as the specification
requires; the retrieve path, in contrast, does fail deterministically with
"no key" and leaves the state unchanged. -/
theorem popRandom_empty_panics :
    lookupPopRandom [] 0 = GoR.panic "crypto/rand: argument to Int is <= 0" ∧
    sendMessage envC4 st0 [] = GoR.panic "crypto/rand: argument to Int is <= 0" ∧
    retrieveMessage envC4 st0 ['h'] ['p'] = (Except.error "no key", st0) := by
  refine ⟨rfl, rfl, rfl⟩

/-! ## C9 — HashInLog substring semantics -/

instance : Inhabited chatData := ⟨chatDataZero⟩

instance : Inhabited ChatLogEntry := ⟨entryW 0 0⟩

/-- An infix of a cons splits into a prefix or an infix of the tail. -/
lemma isInf_cons (pat t : Str) (a : Char) :
    pat <:+: (a :: t) ↔ pat <+: (a :: t) ∨ pat <:+: t := by
  constructor
  · rintro ⟨u, v, huv⟩
    cases u with
    | nil =>
        exact Or.inl ⟨v, by simpa using huv⟩
    | cons x xs =>
        right
        simp only [List.cons_append, List.cons.injEq] at huv
        exact ⟨xs, v, huv.2⟩
  · rintro (⟨v, hv⟩ | ⟨u, v, huv⟩)
    · exact ⟨[], v, by simpa using hv⟩
    · exact ⟨a :: u, v, by simp [← huv]⟩

/-- containsSub is exactly substring containment (Go strings.Contains). -/
lemma containsSub_iff (s pat : Str) : containsSub s pat = true ↔ pat <:+: s := by
  induction s with
  | nil =>
      cases pat with
      | nil =>
          simp only [containsSub]
          constructor
          · intro _
            exact ⟨[], [], rfl⟩
          · intro _
            simp [List.isPrefixOf]
      | cons c p =>
          simp only [containsSub]
          constructor
          · intro h
            simp [List.isPrefixOf] at h
          · rintro ⟨u, v, huv⟩
            simp at huv
  | cons a t ih =>
      rw [isInf_cons]
      by_cases hp : pat.isPrefixOf (a :: t)
      · simp only [containsSub, hp, if_true]
        constructor
        · intro _
          exact Or.inl ( List.isPrefixOf_iff_prefix.mp hp)
        · intro _
          trivial
      · have hp' : ¬ pat <+: (a :: t) := fun hc =>
          hp ( List.isPrefixOf_iff_prefix.mpr hc)
        have hstep : containsSub (a :: t) pat = containsSub t pat := by
          simp [containsSub, hp]
        rw [hstep, ih]
        exact (or_iff_right hp').symm

/-- Claim C9: HashInLog h is true exactly when h occurs as a substring of
some chat-log key (not only when it equals an entry's content hash); the
empty string is in every non-empty log; and retrieval's duplicate check
skips any message whose decrypted hash is substring-contained in the log. -/
theorem hashInLog_substring :
    (∀ (cl : ChatLog) (h : Str),
        hashInLog cl h = true ↔ ∃ p ∈ cl, h <:+: p.1) ∧
    (∀ cl : ChatLog, cl ≠ [] → hashInLog cl [] = true) ∧
    (∀ (env : SessionEnv) (st : SessionState) (p : Str) (rb hsh : Bytes),
        env.rendezvousGet p = Except.ok rb →
        env.decrypt p (rb.drop 24)
            (lookupGet (st.lookups p) (base64encode (rb.take 24))) =
          Except.ok hsh →
        hashInLog st.chatLog (bytesToStr hsh) = true →
        (getRendezvousHash env st p).1 = []) := by
  refine ⟨?_, ?_, ?_⟩
  · intro cl h
    induction cl with
    | nil => simp [hashInLog]
    | cons q t ih =>
        simp only [hashInLog, List.any_cons, Bool.or_eq_true] at ih ⊢
        rw [containsSub_iff, ih]
        constructor
        · rintro (hq | ⟨p, hp, hc⟩)
          · exact ⟨q, by simp, hq⟩
          · exact ⟨p, by simp [hp], hc⟩
        · rintro ⟨p, hp, hc⟩
          rcases List.mem_cons.mp hp with hq | hq
          · subst hq
            exact Or.inl hc
          · exact Or.inr ⟨p, hq, hc⟩
  · intro cl hne
    cases cl with
    | nil => exact absurd rfl hne
    | cons q t =>
        have : containsSub q.1 [] = true := by
          rw [containsSub_iff]
          exact ⟨[], q.1, rfl⟩
        simp [hashInLog, this]
  · intro env st p rb hsh h1 h2 h3
    simp [getRendezvousHash, popKey, h1, h2, setLookupS, h3]

/-- Environment for the C9 witness: the rendezvous read returns 24 bytes of
tag and the pointer decrypts to the one-character hash "a". -/
def envC9 : SessionEnv :=
  { envTriv with
      rendezvousGet := fun _ => Except.ok (List.replicate 24 0)
      decrypt := fun _ _ _ => Except.ok [97] }

/-- Session state for the C9 witness: one log entry keyed "12-a". -/
def stC9 : SessionState :=
  { chat := chat0, lookups := fun _ => [], chatLog := [(logKey 12 ['a'], entryW 12 0)] }

/-- Witness for C9: "2-a" is a substring of the key "12-a" though it is no
entry's hash, the empty string is found, and the skip fires for hash "a". -/
theorem hashInLog_substring_witness :
    (hashInLog stC9.chatLog ['2', '-', 'a'] = true ↔
      ∃ p ∈ stC9.chatLog, ['2', '-', 'a'] <:+: p.1) ∧
    hashInLog stC9.chatLog [] = true ∧
    (getRendezvousHash envC9 stC9 ['p']).1 = [] :=
  ⟨hashInLog_substring.1 stC9.chatLog ['2', '-', 'a'],
   hashInLog_substring.2.1 stC9.chatLog (by decide),
   hashInLog_substring.2.2 envC9 stC9 ['p'] (List.replicate 24 0) [97]
     rfl rfl (by decide)⟩

/-! ## C5 — error handling inside RetrieveMessages -/

/-- Environment for the C5 counterexample: peer "p"'s rendezvous read
succeeds with a payload whose tag is in the table, but decryption fails. -/
def envC5 : SessionEnv :=
  { envTriv with
      rendezvousGet := fun q =>
        if q = ['p'] then Except.ok (List.replicate 24 0)
        else Except.error "no servers available"
      decrypt := fun _ _ _ => Except.error "decrypt failed" }

/-- Session state for the C5 counterexample: peer "p" has one lookup entry
whose tag matches the payload of envC5. -/
def stC5 : SessionState :=
  { chat := chat0
    lookups := fun q =>
      if q = ['p'] then [(base64encode (List.replicate 24 0), List.replicate 32 1)]
      else []
    chatLog := [] }

/-- Claim C5 counterexample: a decryption failure while processing peer "p"
is swallowed (RetrieveMessages still returns ok), yet the persisted state
for that peer is NOT left unchanged — the lookup entry popped before the
failure stays consumed, so the claim's "leaves all persisted state for that
peer unchanged" is false. -/
theorem retrieve_error_state_changed_cex :
    (retrieveMessages envC5 4 stC5).1 = Except.ok [] ∧
    stC5.lookups ['p'] ≠ [] ∧
    (retrieveMessages envC5 4 stC5).2.lookups ['p'] = [] := by
  refine ⟨by decide, by decide, by decide⟩

/-- Claim C5 (amended): inside RetrieveMessages per-peer errors are never
returned to the caller (the result is always ok and the final state is the
fold of the per-peer step over the roster, so a failing peer never prevents
the remaining peers from being processed); a failure of the initial
rendezvous fetch leaves the peer's state unchanged and the rest of the
roster is processed as if the peer were skipped.  However — per the
counterexample — errors after the pointer tag was popped leave that peer's
lookup table changed: the consumed entry stays consumed. -/
theorem retrieveMessages_swallows_errors :
    (∀ (env : SessionEnv) (fuel : Nat) (st : SessionState),
        retrieveMessages env fuel st =
          (Except.ok (sortedLog (st.chat.Peers.foldl (processPeer env fuel) st).chatLog),
           st.chat.Peers.foldl (processPeer env fuel) st)) ∧
    (∀ (env : SessionEnv) (fuel : Nat) (st : SessionState) (p : Str) (e : String),
        p ≠ st.chat.PeerID → env.rendezvousGet p = Except.error e →
        processPeer env fuel st p = st) ∧
    (∀ (env : SessionEnv) (fuel : Nat) (st : SessionState) (p : Str) (e : String)
        (rest : List Str),
        p ≠ st.chat.PeerID → env.rendezvousGet p = Except.error e →
        (p :: rest).foldl (processPeer env fuel) st =
          rest.foldl (processPeer env fuel) st) := by
  have hskip : ∀ (env : SessionEnv) (fuel : Nat) (st : SessionState) (p : Str)
      (e : String), p ≠ st.chat.PeerID → env.rendezvousGet p = Except.error e →
      processPeer env fuel st p = st := by
    intro env fuel st p e hp he
    simp [processPeer, hp, getRendezvousHash, he]
  refine ⟨fun env fuel st => rfl, hskip, ?_⟩
  intro env fuel st p e rest hp he
  rw [List.foldl_cons, hskip env fuel st p e hp he]

/-- Witness for C5's amended theorem at concrete inputs. -/
theorem retrieveMessages_swallows_errors_witness :
    retrieveMessages envTriv 1 st0 =
      (Except.ok (sortedLog (st0.chat.Peers.foldl (processPeer envTriv 1) st0).chatLog),
       st0.chat.Peers.foldl (processPeer envTriv 1) st0) ∧
    processPeer envTriv 1 st0 ['p'] = st0 ∧
    (['p'] :: [['m']]).foldl (processPeer envTriv 1) st0 =
      [['m']].foldl (processPeer envTriv 1) st0 :=
  ⟨retrieveMessages_swallows_errors.1 envTriv 1 st0,
   retrieveMessages_swallows_errors.2.1 envTriv 1 st0 ['p'] "x" (by decide) rfl,
   retrieveMessages_swallows_errors.2.2 envTriv 1 st0 ['p'] "x" [['m']]
     (by decide) rfl⟩

/-! ## C2 — genLookups -/

/-- Inserting a fresh key appends it. -/
lemma lookupInsert_notMem (m : lookupT) (k : Str) (v : Bytes)
    (h : ∀ p ∈ m, p.1 ≠ k) : lookupInsert m k v = m ++ [(k, v)] := by
  have ha : m.any (fun p => decide (p.1 = k)) = false := by
    rw [List.any_eq_false]
    intro p hp
    simp [h p hp]
  simp [lookupInsert, ha]

/-- Folding map insertions of pairwise-fresh keys just appends the pairs. -/
lemma foldl_lookupInsert (f : Nat → Str × Bytes) :
    ∀ (L : List Nat) (acc : lookupT),
      (acc.map Prod.fst ++ L.map fun i => (f i).1).Nodup →
      L.foldl (fun m i => lookupInsert m (f i).1 (f i).2) acc = acc ++ L.map f := by
  intro L
  induction L with
  | nil =>
      intro acc _
      simp
  | cons a t ih =>
      intro acc h
      rw [List.foldl_cons]
      have hnotmem : ∀ p ∈ acc, p.1 ≠ (f a).1 := by
        intro p hp hc
        have hmem : p.1 ∈ acc.map Prod.fst := List.mem_map_of_mem _ hp
        have hd := (List.nodup_append.mp (by simpa using h)).2.2
        exact (hd hmem) (by simp [hc])
      rw [lookupInsert_notMem _ _ _ hnotmem]
      have h' : ((acc ++ [f a]).map Prod.fst ++ t.map fun i => (f i).1).Nodup := by
        simpa [List.append_assoc] using h
      rw [ih (acc ++ [f a]) h']
      simp

/-- Claim C2: for count < 1 genLookups fails; for count ≥ 1 (and the derived
tags distinct, which the Argon2id streams guarantee up to negligible
collisions) the table consists exactly of entries i = 1 .. count-1 — the
zeroth slot unused — with entry i's tag the base64 of tag-stream bytes
(i-1)*24..i*24 and its key the key-stream bytes (i-1)*32..i*32, giving
exactly count-1 entries. -/
theorem genLookups_spec (argon : Bytes → Bytes → Nat → Bytes)
    (pepper entropy : Bytes) (count : Int)
    (_hp : pepper.length = 64) (_he : entropy.length = 96) :
    (count < 1 → genLookups argon pepper entropy CipherType.SecretBox count =
        Except.error "count must be greater than or equal to 1") ∧
    (1 ≤ count →
      ((List.range' 1 (count.toNat - 1)).map
          (fun i => lookupTagSpec argon pepper entropy count.toNat i)).Nodup →
      genLookups argon pepper entropy CipherType.SecretBox count =
        Except.ok ((List.range' 1 (count.toNat - 1)).map
          (fun i => (lookupTagSpec argon pepper entropy count.toNat i,
                     lookupKeySpec argon entropy count.toNat i))) ∧
      ((List.range' 1 (count.toNat - 1)).map
          (fun i => (lookupTagSpec argon pepper entropy count.toNat i,
                     lookupKeySpec argon entropy count.toNat i))).length =
        count.toNat - 1) := by
  constructor
  · intro h
    simp [genLookups, h]
  · intro h1 hnd
    refine ⟨?_, by simp⟩
    unfold genLookups
    rw [if_neg (by omega)]
    have hfold := foldl_lookupInsert
      (fun i => (lookupTagSpec argon pepper entropy count.toNat i,
                 lookupKeySpec argon entropy count.toNat i))
      (List.range' 1 (count.toNat - 1)) [] (by simpa using hnd)
    simpa [lookupTagSpec, lookupKeySpec] using hfold

/-- A deterministic stand-in for the Argon2id stream oracle. -/
def argon0 : Bytes → Bytes → Nat → Bytes := fun _ _ n => List.range n

/-- Witness for C2 with count = 3: two entries, i = 1 and i = 2. -/
theorem genLookups_spec_witness :
    genLookups argon0 (List.replicate 64 0) (List.range 96) CipherType.SecretBox 3 =
      Except.ok ((List.range' 1 ((3 : Int).toNat - 1)).map
        (fun i => (lookupTagSpec argon0 (List.replicate 64 0) (List.range 96)
                     (3 : Int).toNat i,
                   lookupKeySpec argon0 (List.range 96) (3 : Int).toNat i))) ∧
    ((List.range' 1 ((3 : Int).toNat - 1)).map
        (fun i => (lookupTagSpec argon0 (List.replicate 64 0) (List.range 96)
                     (3 : Int).toNat i,
                   lookupKeySpec argon0 (List.range 96) (3 : Int).toNat i))).length =
      (3 : Int).toNat - 1 :=
  (genLookups_spec argon0 (List.replicate 64 0) (List.range 96) 3
      (by simp) (by simp)).2 (by decide) (by decide)

/-! ## C3 / C7 — chunked encryption: round trip and ciphertext length -/

/-- toFixed always yields the array length. -/
lemma toFixed_length (n : Nat) (l : Bytes) : (toFixed n l).length = n := by
  simp [toFixed]

/-- toFixed of an exact-length slice is the identity. -/
lemma toFixed_of_length {n : Nat} {l : Bytes} (h : l.length = n) :
    toFixed n l = l := by
  rw [toFixed, List.take_left' h]

/-- Chunking the empty list gives no chunks, whatever the fuel. -/
lemma chunkGo_nil (c f : Nat) : chunkGo c f [] = [] := by
  cases f <;> rfl

/-- One chunking step on a non-empty list with positive fuel. -/
lemma chunkGo_succ (c f : Nat) (l : Bytes) (h : l ≠ []) :
    chunkGo c (f + 1) l = l.take c :: chunkGo c f (l.drop c) := by
  cases l with
  | nil => exact absurd rfl h
  | cons a t => rfl

/-- Chunks concatenate back to the original list. -/
lemma chunkGo_flatten (c : Nat) (hc : 0 < c) :
    ∀ (f : Nat) (l : Bytes), l.length ≤ f → (chunkGo c f l).flatten = l := by
  intro f
  induction f with
  | zero =>
      intro l hl
      cases l with
      | nil => rfl
      | cons a t => simp at hl
  | succ f ih =>
      intro l hl
      cases l with
      | nil => rfl
      | cons a t =>
          rw [chunkGo_succ c f _ (by simp), List.flatten_cons,
            ih _ (by simp at hl ⊢; omega)]
          exact List.take_append_drop c (a :: t)

/-- Every chunk is non-empty when the chunk size is positive. -/
lemma chunkGo_ne_nil (c : Nat) (hc : 0 < c) :
    ∀ (f : Nat) (l : Bytes), ∀ x ∈ chunkGo c f l, x ≠ [] := by
  intro f
  induction f with
  | zero =>
      intro l x hx
      cases l <;> simp [chunkGo] at hx
  | succ f ih =>
      intro l x hx
      cases l with
      | nil => simp [chunkGo] at hx
      | cons a t =>
          rw [chunkGo_succ c f _ (by simp)] at hx
          rcases List.mem_cons.mp hx with h | h
          · subst h
            cases c with
            | zero => omega
            | succ c2 => simp
          · exact ih _ x h

/-- Every chunk has length at most the chunk size. -/
lemma chunkGo_len_le (c : Nat) :
    ∀ (f : Nat) (l : Bytes), ∀ x ∈ chunkGo c f l, x.length ≤ c := by
  intro f
  induction f with
  | zero =>
      intro l x hx
      cases l <;> simp [chunkGo] at hx
  | succ f ih =>
      intro l x hx
      cases l with
      | nil => simp [chunkGo] at hx
      | cons a t =>
          rw [chunkGo_succ c f _ (by simp)] at hx
          rcases List.mem_cons.mp hx with h | h
          · subst h
            simp
          · exact ih _ x h

/-- The chunkGo of a non-empty list with enough fuel is non-empty. -/
lemma chunkGo_result_ne_nil (c : Nat) (f : Nat) (l : Bytes) (hl : l ≠ [])
    (hf : l.length ≤ f) : chunkGo c f l ≠ [] := by
  cases l with
  | nil => exact absurd rfl hl
  | cons a t =>
      cases f with
      | zero => simp at hf
      | succ f2 => rw [chunkGo_succ c f2 _ (by simp)]; simp

/-- All chunks but the last have length exactly the chunk size. -/
lemma chunkGo_dropLast_len (c : Nat) (hc : 0 < c) :
    ∀ (f : Nat) (l : Bytes), l.length ≤ f →
      ∀ x ∈ (chunkGo c f l).dropLast, x.length = c := by
  intro f
  induction f with
  | zero =>
      intro l hl x hx
      cases l with
      | nil => simp [chunkGo] at hx
      | cons a t => simp at hl
  | succ f ih =>
      intro l hl x hx
      cases l with
      | nil => simp [chunkGo] at hx
      | cons a t =>
          rw [chunkGo_succ c f _ (by simp)] at hx
          by_cases hd : (a :: t).drop c = []
          · rw [hd, chunkGo_nil] at hx
            simp at hx
          · have hrest : chunkGo c f ((a :: t).drop c) ≠ [] :=
              chunkGo_result_ne_nil c f _ hd
                (by simp at hl ⊢; omega)
            rw [List.dropLast_cons_of_ne_nil hrest] at hx
            rcases List.mem_cons.mp hx with h | h
            · subst h
              have : c < (a :: t).length := by
                by_contra hcon
                exact hd (List.drop_of_length_le (by omega))
              simp only [List.length_take]
              omega
            · exact ih _ (by simp at hl ⊢; omega) x h

/-- The number of chunks is the length divided by the chunk size, rounded
up. -/
lemma chunkGo_count (c : Nat) (hc : 0 < c) :
    ∀ (f : Nat) (l : Bytes), l.length ≤ f →
      (chunkGo c f l).length = (l.length + c - 1) / c := by
  intro f
  induction f with
  | zero =>
      intro l hl
      cases l with
      | nil => simp [chunkGo, Nat.div_eq_of_lt (by omega : c - 1 < c)]
      | cons a t => simp at hl
  | succ f ih =>
      intro l hl
      cases l with
      | nil => simp [chunkGo, Nat.div_eq_of_lt (by omega : c - 1 < c)]
      | cons a t =>
          rw [chunkGo_succ c f _ (by simp), List.length_cons,
            ih _ (by simp at hl ⊢; omega)]
          simp only [List.length_drop]
          have hL : 0 < (a :: t).length := by simp
          set L := (a :: t).length with hLdef
          have hR : (L + c - 1) / c = (L - 1) / c + 1 := by
            rw [show L + c - 1 = (L - 1) + c by omega, Nat.add_div_right _ hc]
          by_cases hcase : L ≤ c
          · have h2 : L - c = 0 := by omega
            rw [h2, hR]
            simp [Nat.div_eq_of_lt (show c - 1 < c by omega),
              Nat.div_eq_of_lt (show L - 1 < c by omega)]
          · have h5 : L - c + c - 1 = L - 1 := by omega
            rw [h5, hR]

/-- Decrypting the concatenated encrypted chunks recovers the chunk list's
concatenation, provided all chunks are non-empty, of size at most C, and all
but the last of size exactly C. -/
lemma roundtrip_chunks (prim : SBPrim) (key : Bytes) (C : Nat) (hC : 0 < C)
    (hopen : ∀ n m, n.length = 24 → prim.openBox n (prim.sealBox n m key) key = some m)
    (hlen : ∀ n m, (prim.sealBox n m key).length = m.length + 16) :
    ∀ (chs : List Bytes) (nonces : Nat → Bytes) (i f : Nat),
      (∀ x ∈ chs, x ≠ []) → (∀ x ∈ chs.dropLast, x.length = C) →
      (∀ x ∈ chs, x.length ≤ C) →
      (sbEncryptChunks prim key chs nonces i).length ≤ f →
      sbDecryptChunks prim key
          (chunkGo (C + 40) f (sbEncryptChunks prim key chs nonces i)) =
        Except.ok chs.flatten := by
  intro chs
  induction chs with
  | nil =>
      intro nonces i f _ _ _ _
      simp [sbEncryptChunks, chunkGo_nil, sbDecryptChunks]
  | cons ch t ih =>
      intro nonces i f h1 h2 h3 hf
      have hnlen : (toFixed 24 (nonces i)).length = 24 := toFixed_length 24 _
      have helen :
          ((toFixed 24 (nonces i)) ++
            prim.sealBox (toFixed 24 (nonces i)) ch key).length = ch.length + 40 := by
        rw [List.length_append, hnlen, hlen]
        omega
      have htake :
          ((toFixed 24 (nonces i)) ++
            prim.sealBox (toFixed 24 (nonces i)) ch key).take 24 =
            toFixed 24 (nonces i) := List.take_left' hnlen
      have hdrop :
          ((toFixed 24 (nonces i)) ++
            prim.sealBox (toFixed 24 (nonces i)) ch key).drop 24 =
            prim.sealBox (toFixed 24 (nonces i)) ch key := List.drop_left' hnlen
      cases t with
      | nil =>
          have hchle : ch.length ≤ C := h3 ch (by simp)
          rw [show sbEncryptChunks prim key [ch] nonces i =
                (toFixed 24 (nonces i)) ++
                  prim.sealBox (toFixed 24 (nonces i)) ch key from by
              simp [sbEncryptChunks]]
          cases f with
          | zero =>
              rw [show sbEncryptChunks prim key [ch] nonces i =
                    (toFixed 24 (nonces i)) ++
                      prim.sealBox (toFixed 24 (nonces i)) ch key from by
                  simp [sbEncryptChunks]] at hf
              rw [helen] at hf
              omega
          | succ f2 =>
              rw [chunkGo_succ _ _ _ (by
                  intro hc0
                  have := congrArg List.length hc0
                  rw [helen] at this
                  simp at this)]
              rw [List.take_of_length_le (by rw [helen]; omega),
                List.drop_of_length_le (by rw [helen]; omega), chunkGo_nil]
              simp only [sbDecryptChunks, htake, hdrop, toFixed_of_length hnlen]
              rw [hopen _ ch hnlen]
              simp
      | cons y t2 =>
          have hchC : ch.length = C := h2 ch (by
            rw [List.dropLast_cons_of_ne_nil (by simp)]
            simp)
          have helenC :
              ((toFixed 24 (nonces i)) ++
                prim.sealBox (toFixed 24 (nonces i)) ch key).length = C + 40 := by
            rw [helen, hchC]
          rw [show sbEncryptChunks prim key (ch :: y :: t2) nonces i =
                ((toFixed 24 (nonces i)) ++
                  prim.sealBox (toFixed 24 (nonces i)) ch key) ++
                  sbEncryptChunks prim key (y :: t2) nonces (i + 1) from by
              simp [sbEncryptChunks]] at hf ⊢
          cases f with
          | zero =>
              rw [List.length_append, helenC] at hf
              omega
          | succ f2 =>
              rw [chunkGo_succ _ _ _ (by
                  intro hc0
                  have := congrArg List.length hc0
                  rw [List.length_append, helenC] at this
                  simp at this)]
              rw [List.take_left' helenC, List.drop_left' helenC]
              simp only [sbDecryptChunks, htake, hdrop, toFixed_of_length hnlen]
              rw [hopen _ ch hnlen]
              rw [ih nonces (i + 1) f2
                (fun x hx => h1 x (by simp [hx]))
                (fun x hx => h2 x (by
                  rw [List.dropLast_cons_of_ne_nil (by simp)]
                  simp [hx]))
                (fun x hx => h3 x (by simp [hx]))
                (by
                  rw [List.length_append, helenC] at hf
                  omega)]
              simp

/-- Claim C3: for every plaintext and 32-byte key, and any SecretBoxCipher
with positive chunk size, Decrypt(Encrypt(p, k), k) = p, under the secretbox
oracle's documented contract (sealing appends 16 bytes; opening inverts
sealing under the same 24-byte nonce and key). -/
theorem secretbox_roundtrip (prim : SBPrim)
    (hopen : ∀ n m k, n.length = 24 → prim.openBox n (prim.sealBox n m k) k = some m)
    (hlen : ∀ n m k, (prim.sealBox n m k).length = m.length + 16)
    (s : SecretBoxCipher) (hC : 0 < s.ChunkSize) (nonces : Nat → Bytes)
    (data key ct : Bytes)
    (henc : sbEncrypt prim s nonces data key = Except.ok ct) :
    sbDecrypt prim s ct key = Except.ok data := by
  have hk : ¬ key.length ≠ 32 := by
    intro hne
    rw [sbEncrypt, if_pos hne] at henc
    exact Except.noConfusion henc
  have hct : ct = sbEncryptChunks prim key (chunkList s.ChunkSize data) nonces 0 := by
    rw [sbEncrypt, if_neg hk] at henc
    injection henc with h
    exact h.symm
  rw [sbDecrypt, if_neg hk, hct, chunkList, chunkList]
  rw [roundtrip_chunks prim key s.ChunkSize hC
    (fun n m h => hopen n m key h) (fun n m => hlen n m key)
    (chunkGo s.ChunkSize data.length data) nonces 0 _
    (chunkGo_ne_nil s.ChunkSize hC data.length data)
    (chunkGo_dropLast_len s.ChunkSize hC data.length data le_rfl)
    (chunkGo_len_le s.ChunkSize data.length data)
    le_rfl]
  rw [chunkGo_flatten s.ChunkSize hC data.length data le_rfl]

/-- A toy secretbox primitive satisfying the oracle contract: sealing
appends a 16-byte zero tag. -/
def primT : SBPrim :=
  { sealBox := fun _ m _ => m ++ List.replicate 16 0
    openBox := fun _ c _ =>
      if c.length < 16 then none
      else if c.drop (c.length - 16) = List.replicate 16 0 then
        some (c.take (c.length - 16))
      else none }

/-- primT opens what it seals. -/
lemma primT_open : ∀ n m k, n.length = 24 →
    primT.openBox n (primT.sealBox n m k) k = some m := by
  intro n m k _
  simp only [primT]
  have hL : (m ++ List.replicate 16 0).length = m.length + 16 := by simp
  rw [if_neg (by rw [hL]; omega)]
  have h1 : (m ++ List.replicate 16 0).length - 16 = m.length := by rw [hL]; omega
  rw [h1, List.drop_left, if_pos rfl, List.take_left]

/-- primT's sealed box is 16 bytes longer than the message. -/
lemma primT_len : ∀ n m k, (primT.sealBox n m k).length = m.length + 16 := by
  intro n m k
  simp [primT]

/-- A SecretBoxCipher with chunk size 2 for the cipher witnesses. -/
def cfg2 : SecretBoxCipher := { Nonce := NonceType.RandomNonce, ChunkSize := 2 }

/-- A constant 24-byte nonce oracle. -/
def nonces0 : Nat → Bytes := fun _ => List.replicate 24 7

/-- An all-zero 32-byte key. -/
def key0 : Bytes := List.replicate 32 0

/-- The ciphertext of [1, 2, 3] under primT / cfg2 / nonces0 / key0. -/
def ct3 : Bytes :=
  (List.replicate 24 7 ++ ([1, 2] ++ List.replicate 16 0)) ++
    (List.replicate 24 7 ++ ([3] ++ List.replicate 16 0))

/-- Witness for C3 at plaintext [1, 2, 3] with chunk size 2. -/
theorem secretbox_roundtrip_witness :
    sbDecrypt primT cfg2 ct3 key0 = Except.ok [1, 2, 3] :=
  secretbox_roundtrip primT primT_open primT_len cfg2 (by decide) nonces0
    [1, 2, 3] key0 ct3 (by decide)

/-- The length of the concatenated encrypted chunks: 40 extra bytes for
each chunk. -/
lemma sbEncryptChunks_length (prim : SBPrim) (key : Bytes)
    (hlen : ∀ n m, (prim.sealBox n m key).length = m.length + 16) :
    ∀ (chs : List Bytes) (nonces : Nat → Bytes) (i : Nat),
      (sbEncryptChunks prim key chs nonces i).length =
        chs.flatten.length + 40 * chs.length := by
  intro chs
  induction chs with
  | nil =>
      intro nonces i
      simp [sbEncryptChunks]
  | cons ch t ih =>
      intro nonces i
      simp only [sbEncryptChunks, List.length_append, toFixed_length, hlen,
        ih, List.flatten_cons, List.length_cons]
      omega

/-- Claim C7 counterexample: for a 1-byte plaintext and chunk size 2 the
ciphertext is 41 bytes, not ⌈1/2⌉·(2+40) = 42 as the claim's formula says —
the final short chunk is not padded to the full chunk size. -/
theorem encrypt_length_cex :
    (sbEncrypt primT cfg2 nonces0 [0] key0).map List.length = Except.ok 41 ∧
    (41 : Nat) ≠ ((1 + 2 - 1) / 2) * (2 + 40) := by
  exact ⟨by decide, by decide⟩

/-- Claim C7 (amended): for plaintext length L and chunk size C > 0 the
ciphertext length is L + 40·⌈L/C⌉ (each of the ⌈L/C⌉ chunks carries a
24-byte nonce and 16-byte tag, but a short final chunk stays short); this
equals the claim's ⌈L/C⌉·(C+40) only when C divides L. -/
theorem encrypt_length (prim : SBPrim)
    (hlen : ∀ n m k, (prim.sealBox n m k).length = m.length + 16)
    (s : SecretBoxCipher) (hC : 0 < s.ChunkSize) (nonces : Nat → Bytes)
    (data key ct : Bytes)
    (henc : sbEncrypt prim s nonces data key = Except.ok ct) :
    ct.length =
      data.length + 40 * ((data.length + s.ChunkSize - 1) / s.ChunkSize) := by
  have hk : ¬ key.length ≠ 32 := by
    intro hne
    rw [sbEncrypt, if_pos hne] at henc
    exact Except.noConfusion henc
  have hct : ct = sbEncryptChunks prim key (chunkList s.ChunkSize data) nonces 0 := by
    rw [sbEncrypt, if_neg hk] at henc
    injection henc with h
    exact h.symm
  rw [hct, chunkList, sbEncryptChunks_length prim key (fun n m => hlen n m key),
    chunkGo_flatten s.ChunkSize hC data.length data le_rfl,
    chunkGo_count s.ChunkSize hC data.length data le_rfl]

/-- Witness for C7's amended theorem: 3 bytes, chunk size 2, two chunks,
3 + 40·2 = 83 bytes of ciphertext. -/
theorem encrypt_length_witness :
    ct3.length = (3 : Nat) + 40 * ((3 + 2 - 1) / 2) :=
  encrypt_length primT primT_len cfg2 (by decide) nonces0 [1, 2, 3] key0 ct3
    (by decide)
